import Mathlib

/-!
Verification of the devnovate-hub blogging platform client against its
specification.  Each section embeds one part of the source code as Lean
definitions and proves (or refutes) the corresponding spec claims.
-/

/-! ### Comment thread assembly (CommentSection.fetchComments)

The source fetches the flat list of comment rows of a blog ordered by
`created_at` ascending, then runs a two-pass assembly:

pass 1: `commentMap.set(comment.id, {...comment, replies: []})` for every row;
pass 2: for every row, if `comment.parent_id` is truthy and
`commentMap.get(comment.parent_id)` exists, push the row's node onto the
parent node's `replies` array, else (only when `parent_id` is falsy) push the
node onto `rootComments`.

Since the nodes in the map are shared by reference, pushing onto a parent that
is itself a reply produces genuine nesting.  We embed the state of the map as
the function from a comment id to the list of ids pushed onto that node's
`replies` array, together with the list of root ids, both in push order.
-/

structure CommentRow where
  id : String
  parent_id : Option String
  created_at : Nat
deriving DecidableEq, Repr

/-- JavaScript truthiness of `comment.parent_id`: `undefined` and the empty
string are falsy. -/
def parentKey (c : CommentRow) : Option String :=
  match c.parent_id with
  | some p => if p = "" then none else some p
  | none => none

/-- Keys of `commentMap` after pass 1: the ids occurring in the fetched list. -/
def knownIds (data : List CommentRow) : List String :=
  data.map (fun c => c.id)

/-- One step of pass 2 of `fetchComments`: state is (replies-array contents per
id, root id list). -/
def threadStep (known : List String) (st : (String → List String) × List String)
    (c : CommentRow) : (String → List String) × List String :=
  match parentKey c with
  | some p =>
      if p ∈ known then
        (fun q => if q = p then st.1 p ++ [c.id] else st.1 q, st.2)
      else st
  | none => (st.1, st.2 ++ [c.id])

/-- The whole pass 2 of `fetchComments`. -/
def assembleThreads (data : List CommentRow) : (String → List String) × List String :=
  data.foldl (threadStep (knownIds data)) (fun _ => [], [])

/-- Contents of the `replies` array of the map node for id `p` after assembly. -/
def repliesOf (data : List CommentRow) (p : String) : List String :=
  (assembleThreads data).1 p

/-- The `rootComments` array after assembly (the forest handed to rendering). -/
def rootsOf (data : List CommentRow) : List String :=
  (assembleThreads data).2

/-- The count rendered in the heading of `CommentSection`:
`comments.reduce((total, c) => total + 1 + (c.replies?.length || 0), 0)`. -/
def displayedCount (data : List CommentRow) : Nat :=
  ((rootsOf data).map (fun r => 1 + (repliesOf data r).length)).sum

/-- Generic characterisation of pass 2, first component: the replies array of
node `p` collects, in input order, the ids of the rows whose (truthy)
parent_id is `p`, provided `p` is a known id; an unknown `p` is never touched. -/
theorem foldl_threadStep_fst (known : List String) (data : List CommentRow) :
    ∀ (acc : (String → List String) × List String) (p : String),
      ((data.foldl (threadStep known) acc).1 p)
        = acc.1 p ++ (if p ∈ known then
            (data.filter (fun c => parentKey c == some p)).map (fun c => c.id)
          else []) := by
  induction data with
  | nil => intro acc p; simp
  | cons c t ih =>
      intro acc p
      simp only [List.foldl_cons]
      rw [ih]
      cases hpk : parentKey c with
      | none =>
          simp only [threadStep, hpk]
          have hne : (parentKey c == some p) = false := by
            simp [hpk]
          simp [List.filter_cons, hne]
      | some q =>
          by_cases hq : q ∈ known
          · by_cases hpq : p = q
            · subst hpq
              simp only [threadStep, hpk, if_pos hq, if_pos rfl]
              have hbe : (parentKey c == some p) = true := by
                simp [hpk]
              simp [List.filter_cons, hbe, hq]
            · simp only [threadStep, hpk, if_pos hq, if_neg hpq]
              have hne : (parentKey c == some p) = false := by
                simp [hpk]; exact fun h => (hpq h.symm).elim
              simp [List.filter_cons, hne]
          · simp only [threadStep, hpk, if_neg hq]
            by_cases hpq : p = q
            · subst hpq
              simp [List.filter_cons, hq]
            · have hne : (parentKey c == some p) = false := by
                simp [hpk]; exact fun h => (hpq h.symm).elim
              simp [List.filter_cons, hne]

/-- Generic characterisation of pass 2, second component: the root array
collects, in input order, the ids of the rows with falsy parent_id. -/
theorem foldl_threadStep_snd (known : List String) (data : List CommentRow) :
    ∀ (acc : (String → List String) × List String),
      ((data.foldl (threadStep known) acc).2)
        = acc.2 ++ (data.filter (fun c => (parentKey c).isNone)).map (fun c => c.id) := by
  induction data with
  | nil => intro acc; simp
  | cons c t ih =>
      intro acc
      simp only [List.foldl_cons]
      rw [ih]
      cases hpk : parentKey c with
      | none => simp [threadStep, hpk, List.filter_cons]
      | some q =>
          by_cases hq : q ∈ known
          · simp [threadStep, hpk, if_pos hq, List.filter_cons]
          · simp [threadStep, hpk, if_neg hq, List.filter_cons]

theorem repliesOf_eq (data : List CommentRow) (p : String) :
    repliesOf data p
      = if p ∈ knownIds data then
          (data.filter (fun c => parentKey c == some p)).map (fun c => c.id)
        else [] := by
  have h := foldl_threadStep_fst (knownIds data) data (fun _ => [], []) p
  simpa [repliesOf, assembleThreads] using h

theorem rootsOf_eq (data : List CommentRow) :
    rootsOf data = (data.filter (fun c => (parentKey c).isNone)).map (fun c => c.id) := by
  have h := foldl_threadStep_snd (knownIds data) data (fun _ => [], [])
  simpa [rootsOf, assembleThreads] using h

/-- Injectivity of comment ids over the fetched list when ids are distinct
(the database primary key guarantees this). -/
theorem commentRow_id_inj {data : List CommentRow} (hnd : (knownIds data).Nodup)
    {a b : CommentRow} (ha : a ∈ data) (hb : b ∈ data) (h : a.id = b.id) : a = b :=
  List.inj_on_of_nodup_map hnd ha hb h

/-- The claim's reading of the output forest: every reply list of a reply is
empty (one level of nesting only). -/
def OneLevelOnly (data : List CommentRow) : Prop :=
  ∀ r ∈ rootsOf data, ∀ c ∈ repliesOf data r, repliesOf data c = []

/-- The claim's reading of the output forest: every comment with a parent ends
up in some root's reply list (replies-to-replies flattened under the root). -/
def FlattenedUnderRoots (data : List CommentRow) : Prop :=
  ∀ c ∈ data, (parentKey c).isSome → ∃ r ∈ rootsOf data, c.id ∈ repliesOf data r

/-- A three-row chain ordered ascending by creation time: a root `A`, a reply
`B` to `A`, and a reply `C` to `B`. -/
def exChain : List CommentRow :=
  [⟨"A", none, 1⟩, ⟨"B", some "A", 2⟩, ⟨"C", some "B", 3⟩]

/-- C1 counterexample: on the chain `A ← B ← C` (ordered ascending by creation
time) the assembly attaches `C` to the reply `B`, not to the root `A`: the
forest is neither one level deep nor flattened under the root. -/
theorem fetchComments_chain_not_flattened :
    (exChain.map (fun c => c.created_at)).Sorted (· ≤ ·) ∧
    ¬ OneLevelOnly exChain ∧ ¬ FlattenedUnderRoots exChain := by
  refine ⟨by decide, ?_, ?_⟩
  · intro h
    exact absurd (h "A" (by decide) "B" (by decide)) (by decide)
  · intro h
    have hx := h ⟨"C", some "B", 3⟩ (by decide) (by decide)
    revert hx
    decide

/-- C1 amended: the two-pass assembly in `fetchComments` produces a genuinely
nested forest: the reply list of a node `p` consists, in input order, of
exactly the comments whose truthy `parent_id` equals `p`, provided `p` occurs
in the fetched list (so a reply-to-reply nests under the replying comment,
not under the root); the roots are, in input order, exactly the comments with
falsy `parent_id`. -/
theorem fetchComments_threading (data : List CommentRow) (p : String) :
    repliesOf data p
      = (if p ∈ knownIds data then
          (data.filter (fun c => parentKey c == some p)).map (fun c => c.id)
        else [])
    ∧ rootsOf data = (data.filter (fun c => (parentKey c).isNone)).map (fun c => c.id) :=
  ⟨repliesOf_eq data p, rootsOf_eq data⟩

/-- A single comment whose parent is not in the fetched list. -/
def exOrphan : List CommentRow :=
  [⟨"B", some "X", 1⟩]

/-- C2 counterexample: a comment whose `parent_id` does not match any fetched
comment is dropped from the output forest entirely (the root list is empty and
every reply list is empty), rather than being treated as a root. -/
theorem fetchComments_orphan_dropped :
    rootsOf exOrphan = [] ∧ (∀ p ∈ knownIds exOrphan, repliesOf exOrphan p = []) ∧
    exOrphan ≠ [] := by
  refine ⟨by decide, by decide, by decide⟩

/-- C2 amended: with distinct ids, a comment with falsy `parent_id` becomes a
root, a comment whose truthy `parent_id` matches a fetched comment is attached
to that parent's reply list, and a comment whose truthy `parent_id` matches no
fetched comment is dropped: it appears neither among the roots nor in any
reply list. -/
theorem fetchComments_attachment (data : List CommentRow)
    (hnd : (knownIds data).Nodup) :
    ∀ c ∈ data,
      ((parentKey c).isNone → c.id ∈ rootsOf data) ∧
      (∀ p, parentKey c = some p → p ∈ knownIds data → c.id ∈ repliesOf data p) ∧
      (∀ p, parentKey c = some p → p ∉ knownIds data →
        c.id ∉ rootsOf data ∧ ∀ q, c.id ∉ repliesOf data q) := by
  intro c hc
  refine ⟨?_, ?_, ?_⟩
  · intro h
    rw [rootsOf_eq]
    exact List.mem_map.mpr ⟨c, List.mem_filter.mpr ⟨hc, h⟩, rfl⟩
  · intro p hp hmem
    rw [repliesOf_eq, if_pos hmem]
    exact List.mem_map.mpr ⟨c, List.mem_filter.mpr ⟨hc, by simp [hp]⟩, rfl⟩
  · intro p hp hpnot
    constructor
    · intro hmem
      rw [rootsOf_eq] at hmem
      obtain ⟨c', hc', hid⟩ := List.mem_map.mp hmem
      rw [List.mem_filter] at hc'
      have hcc : c' = c := commentRow_id_inj hnd hc'.1 hc hid
      rw [hcc, hp] at hc'
      simp at hc'
    · intro q hmem
      rw [repliesOf_eq] at hmem
      by_cases hq : q ∈ knownIds data
      · rw [if_pos hq] at hmem
        obtain ⟨c', hc', hid⟩ := List.mem_map.mp hmem
        rw [List.mem_filter] at hc'
        have hcc : c' = c := commentRow_id_inj hnd hc'.1 hc hid
        rw [hcc, hp] at hc'
        have : p = q := by simpa using hc'.2
        exact hpnot (this ▸ hq)
      · rw [if_neg hq] at hmem
        simp at hmem

/-- A root `A` with one reply `B`. -/
def exPair : List CommentRow :=
  [⟨"A", none, 1⟩, ⟨"B", some "A", 2⟩]

/-- Witness for the amended C2 theorem at a concrete two-row input. -/
theorem fetchComments_attachment_witness :
    (knownIds exPair).Nodup ∧ ("B" : String) ∈ repliesOf exPair "A" :=
  ⟨by decide,
    (fetchComments_attachment exPair (by decide) ⟨"B", some "A", 2⟩ (by decide)).2.1
      "A" (by decide) (by decide)⟩

/-- Splitting the length of a filter by a disjunction of disjoint predicates. -/
theorem length_filter_or_disjoint {α : Type} (p q : α → Bool) (l : List α)
    (h : ∀ a, p a = true → q a = false) :
    (l.filter (fun a => p a || q a)).length = (l.filter p).length + (l.filter q).length := by
  induction l with
  | nil => simp
  | cons a t ih =>
      cases hpa : p a with
      | false =>
          cases hqa : q a with
          | false => simpa [List.filter_cons, hpa, hqa] using ih
          | true =>
              simp [List.filter_cons, hpa, hqa, ih]
              omega
      | true =>
          have hqa : q a = false := h a hpa
          simp [List.filter_cons, hpa, hqa, ih]
          omega

/-- Whether a comment's truthy parent id lies in the given id list. -/
def parentIn (rs : List String) (c : CommentRow) : Bool :=
  match parentKey c with
  | some p => rs.contains p
  | none => false

theorem parentIn_nil (c : CommentRow) : parentIn [] c = false := by
  cases h : parentKey c <;> simp [parentIn, h]

theorem parentIn_cons (r : String) (rs : List String) (c : CommentRow) :
    parentIn (r :: rs) c = ((parentKey c == some r) || parentIn rs c) := by
  cases h : parentKey c with
  | none => simp [parentIn, h]
  | some p =>
      by_cases hpr : p = r
      · subst hpr; simp [parentIn, h]
      · simp [parentIn, h, List.contains_cons, hpr]

/-- Summing, over a duplicate-free list of ids, the number of comments whose
parent is that id, counts exactly the comments whose parent lies in the list. -/
theorem sum_parent_counts (l : List CommentRow) :
    ∀ rs : List String, rs.Nodup →
      (rs.map (fun r => (l.filter (fun c => parentKey c == some r)).length)).sum
        = (l.filter (parentIn rs)).length := by
  intro rs
  induction rs with
  | nil =>
      intro _
      have hf : ∀ c : CommentRow, parentIn [] c = false := parentIn_nil
      simp [List.filter_congr (fun c _ => hf c)]
  | cons r rs ih =>
      intro hnd
      have hr : r ∉ rs := (List.nodup_cons.mp hnd).1
      have hrs : rs.Nodup := (List.nodup_cons.mp hnd).2
      have hsplit : ∀ c ∈ l, parentIn (r :: rs) c = ((parentKey c == some r) || parentIn rs c) :=
        fun c _ => parentIn_cons r rs c
      rw [List.map_cons, List.sum_cons, ih hrs, List.filter_congr hsplit,
        length_filter_or_disjoint]
      intro c hc
      cases h : parentKey c with
      | none => simp [parentIn, h]
      | some p =>
          have hpr : p = r := by simpa [h] using hc
          subst hpr
          simp only [parentIn, h]
          simpa using hr

/-- A filter keeps the whole list exactly when every element satisfies the
predicate. -/
theorem length_filter_eq_length_iff {α : Type} (p : α → Bool) (l : List α) :
    (l.filter p).length = l.length ↔ ∀ a ∈ l, p a = true := by
  constructor
  · intro h
    rw [← List.filter_eq_self]
    exact (List.filter_sublist l).eq_of_length h
  · intro h
    rw [List.filter_eq_self.mpr h]

theorem sum_map_one_add {α : Type} (f : α → ℕ) (l : List α) :
    (l.map (fun a => 1 + f a)).sum = l.length + (l.map f).sum := by
  induction l with
  | nil => simp
  | cons a t ih => simp [ih]; omega

/-- C9: the heading count of `CommentSection` equals the number of fetched
comment rows exactly when every comment's truthy parent is a root comment;
comments nested deeper than one level and comments dropped during assembly are
not counted. -/
theorem commentSection_displayed_count (data : List CommentRow)
    (hnd : (knownIds data).Nodup) :
    displayedCount data = data.length
      ↔ ∀ c ∈ data, ∀ p, parentKey c = some p → p ∈ rootsOf data := by
  have hsub : List.Sublist (rootsOf data) (knownIds data) := by
    rw [rootsOf_eq]
    exact (List.filter_sublist data).map _
  have hrnd : (rootsOf data).Nodup := hnd.sublist hsub
  have hcongr : ∀ r ∈ rootsOf data,
      (repliesOf data r).length
        = (data.filter (fun c => parentKey c == some r)).length := by
    intro r hr
    rw [repliesOf_eq, if_pos (hsub.subset hr), List.length_map]
  have hroots_len : (rootsOf data).length
      = (data.filter (fun c => (parentKey c).isNone)).length := by
    rw [rootsOf_eq, List.length_map]
  have hdisj : ∀ c : CommentRow,
      ((parentKey c).isNone = true) → parentIn (rootsOf data) c = false := by
    intro c h
    cases hp : parentKey c with
    | none => simp [parentIn, hp]
    | some p => rw [hp] at h; simp at h
  have hcount : displayedCount data
      = (data.filter (fun c => (parentKey c).isNone || parentIn (rootsOf data) c)).length := by
    rw [displayedCount, sum_map_one_add, List.map_congr_left hcongr,
      sum_parent_counts data (rootsOf data) hrnd, hroots_len,
      length_filter_or_disjoint _ _ _ hdisj]
  rw [hcount, length_filter_eq_length_iff]
  constructor
  · intro h c hc p hp
    have hx := h c hc
    rw [hp] at hx
    simp only [Option.isNone_some, Bool.false_or, parentIn, hp] at hx
    simpa using hx
  · intro h c hc
    cases hp : parentKey c with
    | none => simp
    | some p =>
        have := h c hc p hp
        simp only [parentIn, hp, Option.isNone_some, Bool.false_or]
        simpa using this

/-- Witness for the C9 theorem at a concrete two-row input. -/
theorem commentSection_displayed_count_witness :
    (knownIds exPair).Nodup ∧
    (displayedCount exPair = exPair.length
      ↔ ∀ c ∈ exPair, ∀ p, parentKey c = some p → p ∈ rootsOf exPair) :=
  ⟨by decide, commentSection_displayed_count exPair (by decide)⟩

/-! ### Admin status updates (AdminDashboard.updateBlogStatus)

The mutation issued by every admin dashboard variant is

  supabase.from('blogs').update(
    status,
    published_at: status === 'approved' ? new Date().toISOString() : null
  ).eq('id', blogId)

followed by a local state update, an optional notification call wrapped in its
own try/catch (errors only logged), and a success toast.  A failure of the
database update itself jumps to the outer catch: error toast, no local update,
no notification.
-/

structure BlogRow where
  id : String
  author_id : String
  title : String
  slug : String
  content : String
  status : String
  views_count : Option Int
  likes_count : Option Int
  created_at : Int
  published_at : Option String
deriving DecidableEq, Repr

/-- The row-level effect of the `update` payload of `updateBlogStatus`. -/
def updateBlogStatusRow (b : BlogRow) (status now : String) : BlogRow :=
  { b with
    status := status
    published_at := if status = "approved" then some now else none }

/-- The table-level effect: every row matching `.eq('id', blogId)` is updated. -/
def updateBlogStatusDb (db : List BlogRow) (blogId status now : String) : List BlogRow :=
  db.map (fun b => if b.id = blogId then updateBlogStatusRow b status now else b)

/-- A concrete approved blog carrying a publication timestamp. -/
def exPublished : BlogRow :=
  ⟨"b1", "a1", "T", "t", "body", "approved", some 3, some 1, 10, some "2025-01-01T00:00:00Z"⟩

/-- C3 counterexample: rejecting (or hiding) a blog does not leave
`published_at` unchanged — the update payload always writes the column,
clearing it to null for every non-approved status. -/
theorem updateBlogStatus_clears_published_at :
    (updateBlogStatusRow exPublished "rejected" "2025-02-02T00:00:00Z").published_at = none ∧
    exPublished.published_at ≠ none := by
  exact ⟨rfl, by decide⟩

/-- C3 amended: an admin status update writes exactly the status column and
the `published_at` column — the latter set to the current time when the new
status is approved and cleared to null otherwise; every other column of every
row with the targeted id, and every row with a different id, is unchanged. -/
theorem updateBlogStatus_effect (b : BlogRow) (status now : String) :
    (updateBlogStatusRow b status now).status = status ∧
    (updateBlogStatusRow b status now).published_at
      = (if status = "approved" then some now else none) ∧
    (updateBlogStatusRow b status now).id = b.id ∧
    (updateBlogStatusRow b status now).author_id = b.author_id ∧
    (updateBlogStatusRow b status now).title = b.title ∧
    (updateBlogStatusRow b status now).slug = b.slug ∧
    (updateBlogStatusRow b status now).content = b.content ∧
    (updateBlogStatusRow b status now).views_count = b.views_count ∧
    (updateBlogStatusRow b status now).likes_count = b.likes_count ∧
    (updateBlogStatusRow b status now).created_at = b.created_at ∧
    ∀ db blogId, (updateBlogStatusDb db blogId status now)
      = db.map (fun x => if x.id = blogId then updateBlogStatusRow x status now else x) := by
  refine ⟨rfl, rfl, rfl, rfl, rfl, rfl, rfl, rfl, rfl, rfl, fun _ _ => rfl⟩

/-- Status-update actions offered per blog status by the first
`AdminDashboard` variant: Approve/Reject on pending cards and a Hide button on
approved cards. -/
def adminActionsV1 (status : String) : List String :=
  (if status = "pending" then ["approved", "rejected"] else [])
    ++ (if status = "approved" then ["hidden"] else [])

/-- Status-update actions offered per blog status by the second
`AdminDashboard` variant: Approve/Reject on pending cards, Unpublish (reject)
on approved cards, Approve on rejected cards. -/
def adminActionsV2 (status : String) : List String :=
  (if status = "pending" then ["approved", "rejected"] else [])
    ++ (if status = "approved" then ["rejected"] else [])
    ++ (if status = "rejected" then ["approved"] else [])

/-- Modelled from the spec: the transition set the specification asserts for
the admin workflow (pending→approved, pending→rejected, approved→rejected,
rejected→approved). -/
def specAllowedTransitions : List (String × String) :=
  [("pending", "approved"), ("pending", "rejected"),
   ("approved", "rejected"), ("rejected", "approved")]

/-- C4 counterexample: the first admin dashboard variant offers a Hide action
on an approved blog, a transition approved→hidden outside the specified set. -/
theorem adminActions_offer_hide :
    "hidden" ∈ adminActionsV1 "approved" ∧
    ("approved", "hidden") ∉ specAllowedTransitions := by
  decide

/-- C4 amended: across the admin dashboard variants, the offered status
transitions are exactly the specified four together with approved→hidden. -/
theorem adminActions_characterisation (s t : String) :
    (t ∈ adminActionsV1 s ∨ t ∈ adminActionsV2 s)
      ↔ ((s, t) ∈ specAllowedTransitions ∨ (s, t) = ("approved", "hidden")) := by
  by_cases hp : s = "pending"
  · subst hp
    constructor
    · intro h
      rcases h with h | h
      · simp [adminActionsV1] at h
        rcases h with h | h <;> simp [specAllowedTransitions, h]
      · simp [adminActionsV2] at h
        rcases h with h | h <;> simp [specAllowedTransitions, h]
    · intro h
      rcases h with h | h
      · simp [specAllowedTransitions] at h
        rcases h with ⟨_, h⟩ | ⟨_, h⟩ | ⟨h, _⟩ | ⟨h, _⟩ <;>
          simp_all [adminActionsV1]
      · simp at h
  · by_cases ha : s = "approved"
    · subst ha
      constructor
      · intro h
        rcases h with h | h
        · simp [adminActionsV1] at h
          simp [h]
        · simp [adminActionsV2] at h
          simp [specAllowedTransitions, h]
      · intro h
        rcases h with h | h
        · simp [specAllowedTransitions] at h
          rcases h with ⟨h, _⟩ | ⟨h, _⟩ | ⟨_, h⟩ | ⟨h, _⟩ <;>
            simp_all [adminActionsV2]
        · simp at h
          simp [adminActionsV1, h]
    · by_cases hr : s = "rejected"
      · subst hr
        constructor
        · intro h
          rcases h with h | h
          · simp [adminActionsV1] at h
          · simp [adminActionsV2] at h
            simp [specAllowedTransitions, h]
        · intro h
          rcases h with h | h
          · simp [specAllowedTransitions] at h
            rcases h with ⟨h, _⟩ | ⟨h, _⟩ | ⟨h, _⟩ | ⟨_, h⟩ <;>
              simp_all [adminActionsV2]
          · simp at h
      · constructor
        · intro h
          rcases h with h | h <;> simp [adminActionsV1, adminActionsV2, hp, ha, hr] at h
        · intro h
          rcases h with h | h
          · simp [specAllowedTransitions] at h
            rcases h with ⟨h, _⟩ | ⟨h, _⟩ | ⟨h, _⟩ | ⟨h, _⟩ <;> simp_all
          · simp at h
            exact absurd h.1 ha

/-- Author profile data joined onto a blog in the admin dashboard's local
state. -/
structure ProfileInfo where
  email : Option String
  full_name : Option String
  username : Option String
deriving DecidableEq, Repr

/-- One entry of the admin dashboard's local `blogs` state. -/
structure AdminBlog where
  id : String
  title : String
  slug : String
  status : String
  profiles : Option ProfileInfo
deriving DecidableEq, Repr

/-- The toast shown at the end of `updateBlogStatus`. -/
inductive Toast where
  | success (msg : String)
  | failure (msg : String)
deriving DecidableEq, Repr

/-- Observable outcome of one run of `updateBlogStatus`. -/
structure UpdateOutcome where
  db : List BlogRow
  localBlogs : List AdminBlog
  toast : Toast
  notificationAttempted : Bool
  notificationErrorLogged : Bool
deriving DecidableEq, Repr

/-- The control flow of `updateBlogStatus`: `dbOk` is whether the database
update succeeds, `notifyOk` whether the notification edge-function call
succeeds.  A failing database update hits the outer catch (error toast, no
state change, no notification); a failing notification is caught by the inner
catch and only logged, after the local state update and before the success
toast. -/
def updateBlogStatusFlow (dbOk notifyOk : Bool) (db : List BlogRow)
    (blogs : List AdminBlog) (blogId status now : String) : UpdateOutcome :=
  if dbOk = false then
    { db := db
      localBlogs := blogs
      toast := Toast.failure "Failed to update blog status."
      notificationAttempted := false
      notificationErrorLogged := false }
  else
    let attempt := status = "approved"
      ∧ ((blogs.find? (fun b => b.id = blogId)).elim false (fun b => b.profiles.isSome)) = true
    { db := updateBlogStatusDb db blogId status now
      localBlogs := blogs.map (fun b => if b.id = blogId then { b with status := status } else b)
      toast := Toast.success ("Blog " ++ status ++ " successfully.")
      notificationAttempted := decide attempt
      notificationErrorLogged := decide attempt && !notifyOk }

/-- C5: when the database update succeeds but the notification call fails, the
run is observationally identical to a run whose notification succeeds — same
database state, same local state, same success toast — except that the failure
is logged; the notification failure is never surfaced and nothing is rolled
back. -/
theorem updateBlogStatus_notification_swallowed (db : List BlogRow)
    (blogs : List AdminBlog) (blogId status now : String) :
    (updateBlogStatusFlow true false db blogs blogId status now).toast
        = Toast.success ("Blog " ++ status ++ " successfully.") ∧
    (updateBlogStatusFlow true false db blogs blogId status now).db
        = (updateBlogStatusFlow true true db blogs blogId status now).db ∧
    (updateBlogStatusFlow true false db blogs blogId status now).localBlogs
        = (updateBlogStatusFlow true true db blogs blogId status now).localBlogs ∧
    (updateBlogStatusFlow true false db blogs blogId status now).toast
        = (updateBlogStatusFlow true true db blogs blogId status now).toast ∧
    (updateBlogStatusFlow true false db blogs blogId status now).notificationAttempted
        = (updateBlogStatusFlow true true db blogs blogId status now).notificationAttempted := by
  refine ⟨rfl, rfl, rfl, rfl, ?_⟩
  simp [updateBlogStatusFlow]

/-! ### Notification edge function (supabase/functions/send-notifications)

The handler parses the JSON body, throws on missing `type`, `recipientEmail`
or `recipientName` and on an unknown `type`, otherwise sends the templated
email and returns the provider response with status 200.  Every thrown error
— including the input-validation throws — lands in the single catch block,
which returns the error message with status 500.  There is no 400 path.
-/

structure NotificationRequest where
  type : Option String
  recipientEmail : Option String
  recipientName : Option String
  blogTitle : Option String
  blogSlug : Option String
  authorName : Option String
  commentContent : Option String
deriving DecidableEq, Repr

/-- JavaScript truthiness of an optional string field. -/
def truthyField (f : Option String) : Bool :=
  match f with
  | some s => s ≠ ""
  | none => false

/-- The keys of the `templates` record. -/
def knownNotificationTypes : List String :=
  ["new_blog", "new_comment", "blog_approved"]

/-- Body of an HTTP response from the handler. -/
inductive RespBody where
  | empty
  | emailResponse (r : String)
  | errorBody (msg : String)
deriving DecidableEq, Repr

structure HttpResponse where
  status : Nat
  body : RespBody
deriving DecidableEq, Repr

/-- The `send-notifications` handler.  `parsed` is the result of
`req.json()` (`none` when parsing throws), `emailResult` the outcome of
`resend.emails.send`. -/
def sendNotificationsHandler (method : String) (parsed : Option NotificationRequest)
    (emailResult : Except String String) : HttpResponse :=
  if method = "OPTIONS" then { status := 200, body := RespBody.empty }
  else
    match parsed with
    | none => { status := 500, body := RespBody.errorBody "invalid JSON body" }
    | some d =>
        if !truthyField d.type || !truthyField d.recipientEmail
            || !truthyField d.recipientName then
          { status := 500, body := RespBody.errorBody "Missing required fields" }
        else if !(knownNotificationTypes.contains (d.type.getD "")) then
          { status := 500, body := RespBody.errorBody "Invalid notification type" }
        else
          match emailResult with
          | Except.ok r => { status := 200, body := RespBody.emailResponse r }
          | Except.error e => { status := 500, body := RespBody.errorBody e }

/-- Validity of a parsed request: the three required fields truthy and the
type a key of the template record. -/
def validNotificationRequest (parsed : Option NotificationRequest) : Bool :=
  match parsed with
  | none => false
  | some d =>
      truthyField d.type && truthyField d.recipientEmail && truthyField d.recipientName
        && knownNotificationTypes.contains (d.type.getD "")

/-- Whether the email provider call succeeded. -/
def emailOk (r : Except String String) : Bool :=
  match r with
  | Except.ok _ => true
  | Except.error _ => false

/-- A request missing its `recipientEmail`. -/
def exMissingEmail : NotificationRequest :=
  ⟨some "new_blog", none, some "Nina", some "T", none, none, none⟩

/-- C6 counterexample: a request with a missing required field is answered
with HTTP status 500, not 400 — the validation throw lands in the generic
catch block. -/
theorem sendNotifications_missing_field_is_500 :
    (sendNotificationsHandler "POST" (some exMissingEmail) (Except.ok "sent")).status = 500 ∧
    (sendNotificationsHandler "POST" (some exMissingEmail) (Except.ok "sent")).status ≠ 400 ∧
    (sendNotificationsHandler "POST" (some exMissingEmail) (Except.ok "sent")).body
      = RespBody.errorBody "Missing required fields" := by
  refine ⟨rfl, by decide, rfl⟩

/-- C6 amended: apart from the CORS preflight, the handler answers 200 with
the provider response exactly when the input is valid and the provider call
succeeds, and answers 500 with a structured error body in every other case —
missing or invalid input included; no request is ever answered with 400. -/
theorem sendNotifications_status_characterisation (method : String)
    (parsed : Option NotificationRequest) (r : Except String String) :
    (sendNotificationsHandler method parsed r).status
        = (if method = "OPTIONS" || (validNotificationRequest parsed && emailOk r)
           then 200 else 500) ∧
    ((sendNotificationsHandler method parsed r).status = 500
      → ∃ m, (sendNotificationsHandler method parsed r).body = RespBody.errorBody m) ∧
    (method ≠ "OPTIONS" → validNotificationRequest parsed = true
      → ∀ s, r = Except.ok s
      → (sendNotificationsHandler method parsed r).body = RespBody.emailResponse s) := by
  by_cases hm : method = "OPTIONS"
  · subst hm
    refine ⟨by simp [sendNotificationsHandler], ?_, ?_⟩
    · intro h
      simp [sendNotificationsHandler] at h
    · intro h
      exact absurd rfl h
  · cases parsed with
    | none =>
        refine ⟨by simp [sendNotificationsHandler, validNotificationRequest, hm], ?_, ?_⟩
        · intro _
          exact ⟨"invalid JSON body", by simp [sendNotificationsHandler, hm]⟩
        · intro _ hv
          simp [validNotificationRequest] at hv
    | some d =>
        by_cases hty : truthyField d.type
        · by_cases hem : truthyField d.recipientEmail
          · by_cases hna : truthyField d.recipientName
            · by_cases hkn : (d.type.getD "") ∈ knownNotificationTypes
              · cases r with
                | ok s =>
                    refine ⟨?_, ?_, ?_⟩
                    · simp [sendNotificationsHandler, validNotificationRequest,
                        emailOk, hm, hty, hem, hna, hkn]
                    · intro h
                      simp [sendNotificationsHandler, hm, hty, hem, hna, hkn] at h
                    · intro _ _ s' hs
                      cases hs
                      simp [sendNotificationsHandler, hm, hty, hem, hna, hkn]
                | error e =>
                    refine ⟨?_, ?_, ?_⟩
                    · simp [sendNotificationsHandler, validNotificationRequest,
                        emailOk, hm, hty, hem, hna, hkn]
                    · intro _
                      exact ⟨e, by simp [sendNotificationsHandler, hm, hty, hem, hna, hkn]⟩
                    · intro _ _ s' hs
                      cases hs
              · refine ⟨?_, ?_, ?_⟩
                · simp [sendNotificationsHandler, validNotificationRequest,
                    emailOk, hm, hty, hem, hna, hkn]
                · intro _
                  exact ⟨"Invalid notification type",
                    by simp [sendNotificationsHandler, hm, hty, hem, hna, hkn]⟩
                · intro _ hv
                  simp [validNotificationRequest, hty, hem, hna, hkn] at hv
            · refine ⟨?_, ?_, ?_⟩
              · simp [sendNotificationsHandler, validNotificationRequest, hm, hty, hem, hna]
              · intro _
                exact ⟨"Missing required fields",
                  by simp [sendNotificationsHandler, hm, hty, hem, hna]⟩
              · intro _ hv
                simp [validNotificationRequest, hty, hem, hna] at hv
          · refine ⟨?_, ?_, ?_⟩
            · simp [sendNotificationsHandler, validNotificationRequest, hm, hty, hem]
            · intro _
              exact ⟨"Missing required fields",
                by simp [sendNotificationsHandler, hm, hty, hem]⟩
            · intro _ hv
              simp [validNotificationRequest, hty, hem] at hv
        · refine ⟨?_, ?_, ?_⟩
          · simp [sendNotificationsHandler, validNotificationRequest, hm, hty]
          · intro _
            exact ⟨"Missing required fields",
              by simp [sendNotificationsHandler, hm, hty]⟩
          · intro _ hv
            simp [validNotificationRequest, hty] at hv

/-- Witness for the amended C6 theorem: a valid request whose provider call
succeeds is answered 200 with the provider response. -/
theorem sendNotifications_status_witness :
    ("POST" : String) ≠ "OPTIONS" ∧
    validNotificationRequest
      (some ⟨some "blog_approved", some "a@b.c", some "Nina", some "T", some "t", none, none⟩)
      = true ∧
    (sendNotificationsHandler "POST"
      (some ⟨some "blog_approved", some "a@b.c", some "Nina", some "T", some "t", none, none⟩)
      (Except.ok "sent")).body = RespBody.emailResponse "sent" :=
  ⟨by decide, by decide,
    (sendNotifications_status_characterisation "POST"
      (some ⟨some "blog_approved", some "a@b.c", some "Nina", some "T", some "t", none, none⟩)
      (Except.ok "sent")).2.2 (by decide) (by decide) "sent" rfl⟩

/-! ### Denormalised counters (public.update_blog_stats trigger)

The plpgsql trigger function dispatches on `TG_TABLE_NAME` and `TG_OP` and
bumps `likes_count` / `comments_count` on the blog row referenced by the
inserted or deleted row.  We model the store as lists of rows and the trigger
firing once per inserted/deleted row, as row-level triggers do.
-/

structure LikeRow where
  id : String
  blog_id : String
deriving DecidableEq, Repr

structure CommentDbRow where
  id : String
  blog_id : String
deriving DecidableEq, Repr

structure BlogStats where
  id : String
  likes_count : Int
  comments_count : Int
deriving DecidableEq, Repr

structure DbState where
  blogs : List BlogStats
  likes : List LikeRow
  comments : List CommentDbRow
deriving DecidableEq, Repr

/-- The body of `public.update_blog_stats()`: `UPDATE public.blogs SET
likes_count = likes_count ± 1 WHERE id = blog_id`, and likewise for
`comments_count`, selected by `TG_TABLE_NAME` and `TG_OP`. -/
def update_blog_stats (table op blogId : String) (blogs : List BlogStats) : List BlogStats :=
  if table = "likes" then
    if op = "INSERT" then
      blogs.map (fun b => if b.id = blogId then { b with likes_count := b.likes_count + 1 } else b)
    else if op = "DELETE" then
      blogs.map (fun b => if b.id = blogId then { b with likes_count := b.likes_count - 1 } else b)
    else blogs
  else if table = "comments" then
    if op = "INSERT" then
      blogs.map (fun b =>
        if b.id = blogId then { b with comments_count := b.comments_count + 1 } else b)
    else if op = "DELETE" then
      blogs.map (fun b =>
        if b.id = blogId then { b with comments_count := b.comments_count - 1 } else b)
    else blogs
  else blogs

/-- An insert or delete on the likes or comments table. -/
inductive StatEvent where
  | insertLike (r : LikeRow)
  | deleteLike (r : LikeRow)
  | insertComment (r : CommentDbRow)
  | deleteComment (r : CommentDbRow)
deriving DecidableEq, Repr

/-- Effect of one event on the store: the row change together with the trigger
firing on that row.  Deleting a row that is not present deletes nothing and
fires no trigger. -/
def applyStatEvent (s : DbState) : StatEvent → DbState
  | StatEvent.insertLike r =>
      { s with likes := s.likes ++ [r]
               blogs := update_blog_stats "likes" "INSERT" r.blog_id s.blogs }
  | StatEvent.deleteLike r =>
      if r ∈ s.likes then
        { s with likes := s.likes.erase r
                 blogs := update_blog_stats "likes" "DELETE" r.blog_id s.blogs }
      else s
  | StatEvent.insertComment r =>
      { s with comments := s.comments ++ [r]
               blogs := update_blog_stats "comments" "INSERT" r.blog_id s.blogs }
  | StatEvent.deleteComment r =>
      if r ∈ s.comments then
        { s with comments := s.comments.erase r
                 blogs := update_blog_stats "comments" "DELETE" r.blog_id s.blogs }
      else s

/-- Both denormalised counters of every blog row mirror the number of like and
comment rows referencing it. -/
abbrev StatsInvariant (s : DbState) : Prop :=
  ∀ b ∈ s.blogs,
    b.likes_count = ((s.likes.filter (fun l => l.blog_id = b.id)).length : Int) ∧
    b.comments_count = ((s.comments.filter (fun c => c.blog_id = b.id)).length : Int)

/-- Erasing a present element removes exactly one from the filter count when
the element satisfies the predicate, and nothing otherwise. -/
theorem length_filter_erase {α : Type} [DecidableEq α] (p : α → Bool) (r : α)
    (l : List α) (h : r ∈ l) :
    ((l.filter p).length : Int)
      = ((l.erase r).filter p).length + (if p r then (1 : Int) else 0) := by
  induction l with
  | nil => cases h
  | cons a t ih =>
      by_cases har : a = r
      · subst har
        rw [List.erase_cons_head]
        cases hpa : p a <;> simp [List.filter_cons, hpa]
      · have hrt : r ∈ t := by
          cases List.mem_cons.mp h with
          | inl h' => exact absurd h'.symm har
          | inr h' => exact h'
        rw [List.erase_cons_tail (by simpa using har)]
        cases hpa : p a <;> simp [List.filter_cons, hpa, ih hrt] <;> omega

theorem update_blog_stats_likes_insert (bid : String) (blogs : List BlogStats) :
    update_blog_stats "likes" "INSERT" bid blogs
      = blogs.map (fun b =>
          if b.id = bid then { b with likes_count := b.likes_count + 1 } else b) := rfl

theorem update_blog_stats_likes_delete (bid : String) (blogs : List BlogStats) :
    update_blog_stats "likes" "DELETE" bid blogs
      = blogs.map (fun b =>
          if b.id = bid then { b with likes_count := b.likes_count - 1 } else b) := rfl

theorem update_blog_stats_comments_insert (bid : String) (blogs : List BlogStats) :
    update_blog_stats "comments" "INSERT" bid blogs
      = blogs.map (fun b =>
          if b.id = bid then { b with comments_count := b.comments_count + 1 } else b) := rfl

theorem update_blog_stats_comments_delete (bid : String) (blogs : List BlogStats) :
    update_blog_stats "comments" "DELETE" bid blogs
      = blogs.map (fun b =>
          if b.id = bid then { b with comments_count := b.comments_count - 1 } else b) := rfl

/-- C7: every insert or delete on the likes or comments table, with its
`update_blog_stats` trigger firing, preserves the invariant that each blog's
denormalised counters equal the number of like and comment rows referencing
it. -/
theorem update_blog_stats_preserves (s : DbState) (e : StatEvent)
    (h : StatsInvariant s) : StatsInvariant (applyStatEvent s e) := by
  cases e with
  | insertLike r =>
      intro b' hb'
      simp only [applyStatEvent, update_blog_stats_likes_insert] at hb' ⊢
      obtain ⟨b, hb, rfl⟩ := List.mem_map.mp hb'
      obtain ⟨hL, hC⟩ := h b hb
      by_cases hid : b.id = r.blog_id
      · simp [hid] at hL hC ⊢
        omega
      · have hid' : ¬ r.blog_id = b.id := fun hh => hid hh.symm
        simp [hid, hid'] at hL hC ⊢
        omega
  | deleteLike r =>
      by_cases hmem : r ∈ s.likes
      · intro b' hb'
        simp only [applyStatEvent, if_pos hmem, update_blog_stats_likes_delete] at hb' ⊢
        obtain ⟨b, hb, rfl⟩ := List.mem_map.mp hb'
        obtain ⟨hL, hC⟩ := h b hb
        by_cases hid : b.id = r.blog_id
        · have herase :=
            length_filter_erase (fun l : LikeRow => decide (l.blog_id = b.id)) r s.likes hmem
          simp [hid] at hL hC herase ⊢
          omega
        · have herase :=
            length_filter_erase (fun l : LikeRow => decide (l.blog_id = b.id)) r s.likes hmem
          have hid' : ¬ r.blog_id = b.id := fun hh => hid hh.symm
          simp [hid, hid'] at hL hC herase ⊢
          omega
      · intro b' hb'
        simp only [applyStatEvent, if_neg hmem] at hb' ⊢
        exact h b' hb'
  | insertComment r =>
      intro b' hb'
      simp only [applyStatEvent, update_blog_stats_comments_insert] at hb' ⊢
      obtain ⟨b, hb, rfl⟩ := List.mem_map.mp hb'
      obtain ⟨hL, hC⟩ := h b hb
      by_cases hid : b.id = r.blog_id
      · simp [hid] at hL hC ⊢
        omega
      · have hid' : ¬ r.blog_id = b.id := fun hh => hid hh.symm
        simp [hid, hid'] at hL hC ⊢
        omega
  | deleteComment r =>
      by_cases hmem : r ∈ s.comments
      · intro b' hb'
        simp only [applyStatEvent, if_pos hmem, update_blog_stats_comments_delete] at hb' ⊢
        obtain ⟨b, hb, rfl⟩ := List.mem_map.mp hb'
        obtain ⟨hL, hC⟩ := h b hb
        by_cases hid : b.id = r.blog_id
        · have herase :=
            length_filter_erase (fun c : CommentDbRow => decide (c.blog_id = b.id)) r s.comments hmem
          simp [hid] at hL hC herase ⊢
          omega
        · have herase :=
            length_filter_erase (fun c : CommentDbRow => decide (c.blog_id = b.id)) r s.comments hmem
          have hid' : ¬ r.blog_id = b.id := fun hh => hid hh.symm
          simp [hid, hid'] at hL hC herase ⊢
          omega
      · intro b' hb'
        simp only [applyStatEvent, if_neg hmem] at hb' ⊢
        exact h b' hb'

/-- Witness for the C7 theorem: a consistent one-blog store stays consistent
after a like insert fires the trigger. -/
theorem update_blog_stats_preserves_witness :
    StatsInvariant ⟨[⟨"b1", 0, 0⟩], [], []⟩ ∧
    StatsInvariant (applyStatEvent ⟨[⟨"b1", 0, 0⟩], [], []⟩
      (StatEvent.insertLike ⟨"l1", "b1"⟩)) :=
  ⟨by decide,
    update_blog_stats_preserves ⟨[⟨"b1", 0, 0⟩], [], []⟩
      (StatEvent.insertLike ⟨"l1", "b1"⟩) (by decide)⟩

/-! ### View-count increment (BlogPost.fetchBlog)

The page fetches the single approved blog with the requested slug
(`.eq('slug', slug).eq('status', 'approved').single()`) and then issues
`update(views_count: (data.views_count || 0) + 1).eq('id', data.id)`: the
written value is computed on the client from the row that was read, not by a
server-side atomic increment.
-/

structure ViewBlog where
  id : String
  slug : String
  status : String
  views_count : Option Int
deriving DecidableEq, Repr

/-- The `.single()` read: succeeds exactly when one approved row carries the
slug. -/
def fetchBlogQuery (db : List ViewBlog) (slug : String) : Option ViewBlog :=
  match db.filter (fun b => b.slug = slug && b.status = "approved") with
  | [b] => some b
  | _ => none

/-- `fetchBlog`: on a successful read, write back the read row's
`views_count` (missing treated as 0) plus one to every row with the read id;
returns the read row and the resulting table. -/
def fetchBlog (db : List ViewBlog) (slug : String) : Option (ViewBlog × List ViewBlog) :=
  match fetchBlogQuery db slug with
  | some b =>
      some (b, db.map (fun x =>
        if x.id = b.id then { x with views_count := some (b.views_count.getD 0 + 1) } else x))
  | none => none

theorem fetchBlogQuery_mem {db : List ViewBlog} {slug : String} {b : ViewBlog}
    (h : fetchBlogQuery db slug = some b) :
    b ∈ db ∧ b.slug = slug ∧ b.status = "approved" := by
  unfold fetchBlogQuery at h
  cases hf : db.filter (fun b => b.slug = slug && b.status = "approved") with
  | nil => rw [hf] at h; cases h
  | cons x t =>
      cases t with
      | nil =>
          rw [hf] at h
          have hbx : x = b := by injection h
          have hx : x ∈ db.filter (fun b => b.slug = slug && b.status = "approved") := by
            rw [hf]; exact List.mem_cons_self x []
          have hmf := List.mem_filter.mp hx
          have h2 := hmf.2
          simp at h2
          rw [← hbx]
          exact ⟨hmf.1, h2.1, h2.2⟩
      | cons y u => rw [hf] at h; cases h

/-- C8: a successful fetch of an approved blog by slug performs a
read-then-write increment: the value written to every row carrying the read
id is exactly the `views_count` read in that fetch plus one (a missing count
read as zero), rows with other ids are untouched, and the read row is an
approved row of the table with the requested slug. -/
theorem fetchBlog_increment (db : List ViewBlog) (slug : String) (b : ViewBlog)
    (db' : List ViewBlog) (h : fetchBlog db slug = some (b, db')) :
    b ∈ db ∧ b.slug = slug ∧ b.status = "approved" ∧
    (∀ x ∈ db', x.id = b.id → x.views_count = some (b.views_count.getD 0 + 1)) ∧
    (∀ x ∈ db, x.id ≠ b.id → x ∈ db') := by
  unfold fetchBlog at h
  cases hq : fetchBlogQuery db slug with
  | none => rw [hq] at h; cases h
  | some c =>
      rw [hq] at h
      cases h
      obtain ⟨hmem, hslug, happ⟩ := fetchBlogQuery_mem hq
      refine ⟨hmem, hslug, happ, ?_, ?_⟩
      · intro x hx hid
        obtain ⟨y, hy, rfl⟩ := List.mem_map.mp hx
        by_cases hyid : y.id = b.id
        · simp [hyid]
        · simp only [if_neg hyid] at hid ⊢
          exact absurd hid hyid
      · intro x hx hid
        have : (if x.id = b.id then
            { x with views_count := some (b.views_count.getD 0 + 1) } else x) = x := by
          rw [if_neg hid]
        rw [← this]
        exact List.mem_map.mpr ⟨x, hx, rfl⟩

/-- Witness for the C8 theorem: one approved row with 5 views is read and
written back with 6. -/
theorem fetchBlog_increment_witness :
    fetchBlog [⟨"b1", "s", "approved", some 5⟩] "s"
        = some (⟨"b1", "s", "approved", some 5⟩,
            [⟨"b1", "s", "approved", some 6⟩]) ∧
    (⟨"b1", "s", "approved", some 5⟩ : ViewBlog) ∈ [⟨"b1", "s", "approved", some 5⟩] :=
  ⟨by decide,
    (fetchBlog_increment [⟨"b1", "s", "approved", some 5⟩] "s"
      ⟨"b1", "s", "approved", some 5⟩ [⟨"b1", "s", "approved", some 6⟩] (by decide)).1⟩

/-! ### Admin content filtering and sorting (AdminDashboard.filterAndSortBlogs)

Three sequential phases over the local blog list: a status filter (skipped for
the 'all' filter), a case-insensitive substring search over title, author full
name and author username (skipped for the empty query), and a stable sort
keyed by the selected sort option (no sort for an unknown option).
-/

structure FilterBlog where
  title : String
  full_name : Option String
  username : Option String
  status : String
  created_at : Int
  views_count : Option Int
  likes_count : Option Int
deriving DecidableEq, Repr

/-- `s.toLowerCase().includes(q)` for an already lower-cased query `q`. -/
def lcContains (s q : String) : Bool :=
  decide (List.IsInfix q.toLower.toList s.toLower.toList)

/-- The search predicate of `filterAndSortBlogs`. -/
def searchMatches (q : String) (b : FilterBlog) : Bool :=
  lcContains b.title q || lcContains (b.full_name.getD "") q
    || lcContains (b.username.getD "") q

/-- Phase 1: `if (statusFilter !== 'all') result = result.filter(...)`. -/
def statusStage (blogs : List FilterBlog) (statusFilter : String) : List FilterBlog :=
  if statusFilter ≠ "all" then blogs.filter (fun b => b.status = statusFilter) else blogs

/-- Phase 2: `if (searchQuery) result = result.filter(...)`. -/
def searchStage (blogs : List FilterBlog) (searchQuery : String) : List FilterBlog :=
  if searchQuery ≠ "" then blogs.filter (searchMatches searchQuery) else blogs

/-- Phase 3: the `switch (sortBy)` over the four sort keys; JavaScript sort is
stable, embedded as a stable merge sort. -/
def sortStage (blogs : List FilterBlog) (sortBy : String) : List FilterBlog :=
  if sortBy = "newest" then
    blogs.mergeSort (fun a b => decide (b.created_at ≤ a.created_at))
  else if sortBy = "oldest" then
    blogs.mergeSort (fun a b => decide (a.created_at ≤ b.created_at))
  else if sortBy = "most_views" then
    blogs.mergeSort (fun a b => decide (b.views_count.getD 0 ≤ a.views_count.getD 0))
  else if sortBy = "most_likes" then
    blogs.mergeSort (fun a b => decide (b.likes_count.getD 0 ≤ a.likes_count.getD 0))
  else blogs

def filterAndSortBlogs (blogs : List FilterBlog) (statusFilter searchQuery sortBy : String) :
    List FilterBlog :=
  sortStage (searchStage (statusStage blogs statusFilter) searchQuery) sortBy

/-- The combined selection predicate: status matches the filter (or the filter
is 'all') and the query occurs case-insensitively in title, author full name
or author username (or the query is empty). -/
def blogMatches (statusFilter searchQuery : String) (b : FilterBlog) : Bool :=
  (statusFilter = "all" || b.status = statusFilter)
    && (searchQuery = "" || searchMatches searchQuery b)

/-- The order guaranteed per sort key: `created_at` descending for newest,
ascending for oldest, `views_count` (missing read as 0) descending for
most_views, `likes_count` descending for most_likes, and no constraint for any
other key. -/
def sortKeyRel (sortBy : String) (a b : FilterBlog) : Prop :=
  if sortBy = "newest" then b.created_at ≤ a.created_at
  else if sortBy = "oldest" then a.created_at ≤ b.created_at
  else if sortBy = "most_views" then b.views_count.getD 0 ≤ a.views_count.getD 0
  else if sortBy = "most_likes" then b.likes_count.getD 0 ≤ a.likes_count.getD 0
  else True

theorem stages_eq_filter (blogs : List FilterBlog) (f q : String) :
    searchStage (statusStage blogs f) q = blogs.filter (blogMatches f q) := by
  by_cases hf : f = "all"
  · subst hf
    by_cases hq : q = ""
    · subst hq
      have hall : ∀ b ∈ blogs, blogMatches "all" "" b = true := fun b _ => by
        simp [blogMatches]
      rw [List.filter_eq_self.mpr hall]
      simp [statusStage, searchStage]
    · have heq : ∀ b ∈ blogs, searchMatches q b = blogMatches "all" q b := fun b _ => by
        simp [blogMatches, hq]
      rw [← List.filter_congr heq]
      simp [statusStage, searchStage, hq]
  · by_cases hq : q = ""
    · subst hq
      have heq : ∀ b ∈ blogs, (decide (b.status = f)) = blogMatches f "" b := fun b _ => by
        simp [blogMatches, hf]
      rw [← List.filter_congr heq]
      simp [statusStage, searchStage, hf]
    · have heq : ∀ b ∈ blogs,
          (searchMatches q b && decide (b.status = f)) = blogMatches f q b := fun b _ => by
        simp [blogMatches, hf, hq, Bool.and_comm]
      rw [← List.filter_congr heq]
      simp [statusStage, searchStage, hf, hq, List.filter_filter]

theorem sortStage_perm (l : List FilterBlog) (s : String) : (sortStage l s).Perm l := by
  unfold sortStage
  by_cases h1 : s = "newest"
  · simp only [if_pos h1]; exact List.mergeSort_perm l _
  · simp only [if_neg h1]
    by_cases h2 : s = "oldest"
    · simp only [if_pos h2]; exact List.mergeSort_perm l _
    · simp only [if_neg h2]
      by_cases h3 : s = "most_views"
      · simp only [if_pos h3]; exact List.mergeSort_perm l _
      · simp only [if_neg h3]
        by_cases h4 : s = "most_likes"
        · simp only [if_pos h4]; exact List.mergeSort_perm l _
        · simp only [if_neg h4]; exact List.Perm.refl l

theorem pairwise_of_total_rel {α : Type} (R : α → α → Prop) (hR : ∀ a b, R a b)
    (l : List α) : l.Pairwise R := by
  induction l with
  | nil => exact List.Pairwise.nil
  | cons a t ih => exact List.Pairwise.cons (fun b _ => hR a b) ih

theorem sortStage_sorted (l : List FilterBlog) (s : String) :
    (sortStage l s).Sorted (sortKeyRel s) := by
  unfold sortStage
  by_cases h1 : s = "newest"
  · subst h1
    simp only [if_pos rfl]
    have hp := @List.sorted_mergeSort _
      (fun a b : FilterBlog => decide (b.created_at ≤ a.created_at))
      (fun a b c hab hbc => by
        simp only [decide_eq_true_eq] at hab hbc ⊢; omega)
      (fun a b => by
        simp only [Bool.or_eq_true, decide_eq_true_eq]; omega)
      l
    exact hp.imp (fun h => by
      simp only [decide_eq_true_eq] at h
      simpa [sortKeyRel] using h)
  · simp only [if_neg h1]
    by_cases h2 : s = "oldest"
    · subst h2
      simp only [if_pos rfl]
      have hp := @List.sorted_mergeSort _
        (fun a b : FilterBlog => decide (a.created_at ≤ b.created_at))
        (fun a b c hab hbc => by
          simp only [decide_eq_true_eq] at hab hbc ⊢; omega)
        (fun a b => by
          simp only [Bool.or_eq_true, decide_eq_true_eq]; omega)
        l
      exact hp.imp (fun h => by
        simp only [decide_eq_true_eq] at h
        simpa [sortKeyRel, h1] using h)
    · simp only [if_neg h2]
      by_cases h3 : s = "most_views"
      · subst h3
        simp only [if_pos rfl]
        have hp := @List.sorted_mergeSort _
          (fun a b : FilterBlog => decide (b.views_count.getD 0 ≤ a.views_count.getD 0))
          (fun a b c hab hbc => by
            simp only [decide_eq_true_eq] at hab hbc ⊢; omega)
          (fun a b => by
            simp only [Bool.or_eq_true, decide_eq_true_eq]; omega)
          l
        exact hp.imp (fun h => by
          simp only [decide_eq_true_eq] at h
          simpa [sortKeyRel, h1, h2] using h)
      · simp only [if_neg h3]
        by_cases h4 : s = "most_likes"
        · subst h4
          simp only [if_pos rfl]
          have hp := @List.sorted_mergeSort _
            (fun a b : FilterBlog => decide (b.likes_count.getD 0 ≤ a.likes_count.getD 0))
            (fun a b c hab hbc => by
              simp only [decide_eq_true_eq] at hab hbc ⊢; omega)
            (fun a b => by
              simp only [Bool.or_eq_true, decide_eq_true_eq]; omega)
            l
          exact hp.imp (fun h => by
            simp only [decide_eq_true_eq] at h
            simpa [sortKeyRel, h1, h2, h3] using h)
        · simp only [if_neg h4]
          refine pairwise_of_total_rel _ (fun a b => ?_) l
          simp [sortKeyRel, h1, h2, h3, h4]

/-- C10: `filterAndSortBlogs` returns exactly the blogs passing the status
filter ('all' keeps everything) and the case-insensitive search over title,
author full name and author username (the empty query keeps everything), as a
permutation; and the result is sorted by `created_at` descending for
'newest', `created_at` ascending for 'oldest', `views_count` descending for
'most_views' and `likes_count` descending for 'most_likes'. -/
theorem filterAndSortBlogs_spec (blogs : List FilterBlog) (f q s : String) :
    (filterAndSortBlogs blogs f q s).Perm (blogs.filter (blogMatches f q)) ∧
    (filterAndSortBlogs blogs f q s).Sorted (sortKeyRel s) := by
  constructor
  · unfold filterAndSortBlogs
    exact (sortStage_perm _ s).trans (stages_eq_filter blogs f q ▸ List.Perm.refl _)
  · exact sortStage_sorted _ s
